import Mathlib

/-!
Verification of the core of the Julia garbage collector (d-netto/julia,
GC refactoring branch) against its natural-language specification.

The development shallowly embeds the relevant C functions:
  - src/work-stealing-queue.h : the idempotent work-stealing queue
  - src/gc.c                  : sweep_page, clear_weak_refs,
                                sweep_finalizer_list, _jl_gc_collect,
                                jl_gc_collect
  - src/gc-alloc.c            : jl_gc_big_alloc_inner, jl_gc_realloc_string,
                                gc_reset_page
  - src/gc-sweep.c            : gc_sweep_weak_refs
Machine integers are modelled as Nat (with explicit mod 2^64 where an
overflow check in the source matters); fallible allocation paths return
Except/Option.
-/

namespace JuliaGC

/-! ### GC bit states

The two low header bits (see the state-transition diagram in src/gc.c and
the spec data model): CLEAN 00, MARKED 01, OLD 10, OLD_MARKED 11.
The numeric values come from julia.h (outside src/); the predicates
gc_marked / gc_old are embedded from src/gc.c lines 1778-1786. -/

def GC_CLEAN : Nat := 0

def GC_MARKED : Nat := 1

def GC_OLD : Nat := 2

def GC_OLD_MARKED : Nat := 3

/-- src/gc.c: gc_marked(bits) = (bits & GC_MARKED) != 0 -/
def gc_marked (bits : Nat) : Bool := bits &&& GC_MARKED != 0

/-- src/gc.c: gc_old(bits) = (bits & GC_OLD) != 0 -/
def gc_old (bits : Nat) : Bool := bits &&& GC_OLD != 0

/-- src/gc.c: gc_ptr_tag(v, 1) -- the low tag bit of a (pointer-sized) word. -/
def gc_ptr_tag (v : Nat) : Nat := v % 2

/-- src/gc.c: gc_ptr_clear_tag(v, 1) = v & ~1. -/
def gc_ptr_clear_tag (v : Nat) : Nat := v - v % 2

/-- PROMOTE_AGE from src/gc.c line 190. -/
def PROMOTE_AGE : Nat := 1

/-! ### Work-stealing queue (src/work-stealing-queue.h)

The header implements the *idempotent work-stealing* structure of
Michael et al.: a single anchor word holding a pair (tail, tag), and an
array pointer.  There is no top/bottom pair.  We embed the three
operations in their sequential semantics (the CAS in steal succeeds
when no concurrent operation interferes). -/

structure WsQueue where
  buffer : List Nat
  capacity : Nat
  tail : Nat
  tag : Nat
  deriving Repr, DecidableEq

/-- src/work-stealing-queue.h: create_ws_array (fresh queue state). -/
def create_ws_array (capacity : Nat) : WsQueue :=
  { buffer := List.replicate capacity 0, capacity := capacity, tail := 0, tag := 0 }

/-- src/work-stealing-queue.h lines 43-61: ws_queue_push.
If tail has reached capacity the array is doubled (the first tail
elements are copied); the element is stored at index tail and the anchor
becomes (tail+1, tag+1). -/
def ws_queue_push (q : WsQueue) (elt : Nat) : WsQueue :=
  let q1 :=
    if q.tail == q.capacity then
      { q with capacity := 2 * q.capacity,
               buffer := q.buffer ++ List.replicate q.capacity 0 }
    else q
  { q1 with buffer := q1.buffer.set q1.tail elt, tail := q1.tail + 1, tag := q1.tag + 1 }

/-- src/work-stealing-queue.h lines 63-73: ws_queue_pop.
Empty (tail = 0) returns nothing; otherwise reads the slot at tail-1 and
publishes the anchor (tail-1, tag). -/
def ws_queue_pop (q : WsQueue) : Option Nat × WsQueue :=
  if q.tail == 0 then (none, q)
  else (some (q.buffer.getD (q.tail - 1) 0), { q with tail := q.tail - 1 })

/-- src/work-stealing-queue.h lines 75-89: ws_queue_steal_from.
Reads the slot at tail-1 and CASes the anchor from (tail, tag) to
(tail-1, tag); sequentially the CAS succeeds. -/
def ws_queue_steal_from (q : WsQueue) : Option Nat × WsQueue :=
  if q.tail == 0 then (none, q)
  else (some (q.buffer.getD (q.tail - 1) 0), { q with tail := q.tail - 1 })

/-- Two-element queue used to settle C2: 10 pushed first, then 20. -/
def wsq_example : WsQueue :=
  ws_queue_push (ws_queue_push (create_ws_array 4) 10) 20

/-! ### Collector controller (src/gc.c: _jl_gc_collect decision logic and
jl_gc_collect entry point) -/

/-- jl_gc_collection_t kinds used by the controller. -/
inductive GcCollection where
  | auto
  | full
  deriving Repr, DecidableEq

/-- default_collect_interval = 5600 * 1024 * sizeof(void*) on 64-bit
(src/gc-sweep.h). -/
def default_collect_interval : Nat := 5600 * 1024 * 8

/-- The quantities _jl_gc_collect reads when deciding the sweep kind
(src/gc.c lines 925-972): the freed-bytes estimate, bytes allocated
since the last sweep, the summed remset pointer counts, the current
interval and its clamp, live bytes and the memory ceiling, and the
debugging always-full flag. -/
structure HeuristicState where
  estimate_freed : Int
  actual_allocd : Int
  remset_nptr : Nat
  interval : Nat
  max_collect_interval : Nat
  live_bytes : Int
  max_total_memory : Int
  gc_sweep_always_full : Bool
  deriving Repr, DecidableEq

structure SweepDecision where
  sweep_full : Bool
  recollect : Bool
  interval : Nat
  deriving Repr, DecidableEq

/-- src/gc.c lines 925-972: the next-collection decision inside
_jl_gc_collect.  Heuristics (interval doubling, large intergenerational
frontier, interval clamp) only apply to JL_GC_AUTO; live_bytes above
max_total_memory or the always-full flag force a full sweep; a FULL
trigger forces a full sweep and sets recollect. -/
def collect_decision (collection : GcCollection) (h : HeuristicState) : SweepDecision :=
  let not_freed_enough :=
    collection = GcCollection.auto ∧ h.estimate_freed < 7 * Int.tdiv h.actual_allocd 10
  let large_frontier := h.remset_nptr * 8 ≥ default_collect_interval
  let (sweep_full1, interval1) :=
    if collection = GcCollection.auto then
      let interval0 := if not_freed_enough then h.interval * 2 else h.interval
      if interval0 > h.max_collect_interval then (true, h.max_collect_interval)
      else (large_frontier, interval0)
    else (false, h.interval)
  let sweep_full2 :=
    sweep_full1 || decide (h.live_bytes > h.max_total_memory) || h.gc_sweep_always_full
  if collection = GcCollection.full then
    { sweep_full := true, recollect := true, interval := interval1 }
  else
    { sweep_full := sweep_full2, recollect := false, interval := interval1 }

/-- The globals jl_gc_collect touches before any collection work:
the process-wide disable counter, gc_num.interval and
gc_num.deferred_alloc. -/
structure CollectorGlobals where
  disable_counter : Nat
  interval : Nat
  deferred_alloc : Int
  deriving Repr, DecidableEq

/-- Result of a jl_gc_collect call: the updated globals, the calling
thread's allocd counter, and the list of _jl_gc_collect invocations that
ran inside the stop-the-world episode (empty when nothing ran: no
marking, no sweeping, no header changes). -/
structure CollectResult where
  globals : CollectorGlobals
  allocd : Int
  runs : List GcCollection
  deriving Repr, DecidableEq

/-- src/gc.c lines 1087-1141: jl_gc_collect.  If jl_gc_disable_counter
is nonzero, the call only adds the thread's allocd plus the current
interval into gc_num.deferred_alloc and resets allocd to -interval,
then returns (lines 1093-1099).  Otherwise the safepoint is claimed and
_jl_gc_collect(collection) runs; when it returns a recollect request
(lines 963-966: set exactly for JL_GC_FULL), one additional AUTO
collection runs before the safepoint is released (lines 1132-1141).
h1/h2 are the heuristic inputs observed by the first and second run. -/
def jl_gc_collect (g : CollectorGlobals) (allocd : Int) (collection : GcCollection)
    (h1 : HeuristicState) : CollectResult :=
  if g.disable_counter ≠ 0 then
    let localbytes := allocd + (g.interval : Int)
    { globals := { g with deferred_alloc := g.deferred_alloc + localbytes },
      allocd := -(g.interval : Int), runs := [] }
  else
    let d1 := collect_decision collection h1
    if d1.recollect then
      { globals := g, allocd := allocd, runs := [collection, GcCollection.auto] }
    else
      { globals := g, allocd := allocd, runs := [collection] }

/-! ### Strings (src/gc-alloc.c: jl_gc_realloc_string) -/

/-- GC_MAX_SZCLASS: pool/big allocation cutoff (julia_internal.h, 64-bit
value 2032 - sizeof(void*)); the sz <= len fast path of
jl_gc_realloc_string does not depend on it. -/
def GC_MAX_SZCLASS : Nat := 2032 - 8

/-- A managed string: its length word, the gc bits of its header, and its
byte contents. -/
structure JlString where
  len : Nat
  bits : Nat
  data : List Nat
  deriving Repr, DecidableEq

/-- Result of jl_gc_realloc_string: either the argument itself is
returned (no allocation, no copy, no header change), or a fresh pool/big
string is allocated and the old contents copied, or the big backing
block is reallocated in place. -/
inductive ReallocStringResult where
  | same (s : JlString)
  | freshCopy (snew : JlString)
  | grownInPlace (snew : JlString)
  deriving Repr, DecidableEq

/-- src/gc-alloc.c lines 216-254: jl_gc_realloc_string.
The branch structure follows the source: if sz <= len the string is
returned unchanged; if the string is pool-sized or marked, a new string
is allocated and the data copied; otherwise the big backing block is
reallocated, re-tagged GC_OLD with age PROMOTE_AGE and relinked. -/
def jl_gc_realloc_string (s : JlString) (sz : Nat) : ReallocStringResult :=
  let len := s.len
  if sz ≤ len then .same s
  else
    let strsz := len + 8 + 1
    if strsz ≤ GC_MAX_SZCLASS || gc_marked s.bits then
      .freshCopy { len := sz, bits := GC_CLEAN, data := s.data.take len }
    else
      .grownInPlace { len := sz, bits := GC_OLD, data := s.data.take len }

/-! ### Big-object allocation (src/gc-alloc.c: jl_gc_big_alloc_inner) -/

/-- JL_CACHE_BYTE_ALIGNMENT (cache-line alignment, 64 bytes). -/
def JL_CACHE_BYTE_ALIGNMENT : Nat := 64

/-- offsetof(bigval_t, header): on 64-bit the header union sits after
7 pointer-sized words (next, prev, the sz/age union, and 4 words of
padding, see the bigval_t layout in the gc header), i.e. at byte offset
56; the value that follows the tag word is then 64-byte aligned. -/
def bigval_header_offset : Nat := 56

/-- LLT_ALIGN(x, sz) = ((x + sz - 1) & ~(sz - 1)); for the power-of-two
alignments used here this equals rounding up to a multiple of sz. -/
def LLT_ALIGN (x sz : Nat) : Nat := (x + sz - 1) - (x + sz - 1) % sz

/-- A big-object header (bigval_t): size, 2-bit age, gc bits. -/
structure BigVal where
  sz : Nat
  age : Nat
  bits : Nat
  deriving Repr, DecidableEq

/-- src/gc-alloc.c lines 257-285: jl_gc_big_alloc_inner.
allocsz = LLT_ALIGN(sz + offsetof(bigval_t, header), cache alignment),
computed in size_t arithmetic (mod 2^64); if it wrapped below sz the
allocation throws OutOfMemory.  On success the new header gets
age = PROMOTE_AGE and gc bits GC_OLD and is linked at the head of the
mutator's big_objects list (gc_big_object_link prepends). -/
def jl_gc_big_alloc_inner (big_objects : List BigVal) (sz : Nat) :
    Except Unit (BigVal × List BigVal) :=
  let allocsz := LLT_ALIGN (sz + bigval_header_offset) JL_CACHE_BYTE_ALIGNMENT % 2 ^ 64
  if allocsz < sz then .error ()
  else
    let v : BigVal := { sz := allocsz, age := PROMOTE_AGE, bits := GC_OLD }
    .ok (v, v :: big_objects)

/-! ### Sweep-phase bit transitions (src/gc.c: the sweep_page cell loop,
lines 500-533, and the post-sweep remset re-tag, lines 1005-1019) -/

/-- A pool cell: its header gc bits and its age bit from the page's age
bitmap. -/
structure Cell where
  bits : Nat
  age : Bool
  deriving Repr, DecidableEq

/-- src/gc.c lines 509-526: the bits a marked (surviving) cell carries
after the sweep walk.  Old-enough cells (age bit set, or already
GC_OLD_MARKED) are promoted to GC_OLD on a full sweep or when they are
young-marked; on a quick sweep GC_OLD_MARKED is kept; cells that are not
yet old enough are unmarked back to GC_CLEAN. -/
def sweep_survivor_bits (sweep_full : Bool) (c : Cell) : Nat :=
  if c.age || c.bits == GC_OLD_MARKED then
    if sweep_full || c.bits == GC_MARKED then GC_OLD else c.bits
  else GC_CLEAN

/-- src/gc.c lines 1005-1019: after sweeping, a quick sweep re-tags every
object of the remset (and of rem_bindings) to GC_MARKED so the write
barrier does not fire on them again. -/
def remset_retag_bits (sweep_full : Bool) (inRemset : Bool) (bits : Nat) : Nat :=
  if !sweep_full && inRemset then GC_MARKED else bits

/-- src/gc.c lines 1005-1019: a full sweep clears the remset instead of
re-tagging it. -/
def remset_after_sweep (sweep_full : Bool) (remset : List Nat) : List Nat :=
  if sweep_full then [] else remset

/-- End-of-cycle gc bits of a cell, immediately before the mutators are
resumed: the sweep transition followed, on quick sweeps, by the remset
re-tag.  Cells whose mark bit is clear are freed (none). -/
def gc_cycle_final_bits (sweep_full : Bool) (inRemset : Bool) (c : Cell) : Option Nat :=
  if gc_marked c.bits then
    some (remset_retag_bits sweep_full inRemset (sweep_survivor_bits sweep_full c))
  else none

/-! ### Page sweep (src/gc.c: sweep_page, src/gc-alloc.c: gc_reset_page) -/

/-- Metadata of a pool page together with its cell array.  The C page
holds (GC_PAGE_SZ - GC_PAGE_OFFSET)/osize cells; the model represents
that array by the cells list, so the total cell count is cells.length.
fl is the page-local freelist (cell indices; the -1 offset sentinel is
the empty list). -/
structure PageMeta where
  has_marked : Bool
  has_young : Bool
  nold : Nat
  prev_nold : Nat
  nfree : Nat
  fl : List Nat
  cells : List Cell
  deriving Repr, DecidableEq

/-- Accumulator of the sweep_page cell loop: the locals has_marked,
has_young, prev_nold, pg_nfree, the freelist being threaded through the
freed cells, and the post-sweep cell array (none = cell freed onto the
freelist). -/
structure SweepWalkState where
  has_marked : Bool
  has_young : Bool
  prev_nold : Nat
  pg_nfree : Nat
  freelist : List Nat
  cellsOut : List (Option Cell)
  deriving Repr, DecidableEq

/-- One iteration of the sweep_page cell loop (src/gc.c lines 500-533):
an unmarked cell is appended to the freelist, counted in pg_nfree and
its age bit cleared; a marked cell gets its post-sweep bits, bumps
prev_nold when old enough (otherwise sets has_young), sets its age bit,
and ors the new bits' mark into has_marked. -/
def sweep_page_cell_step (sweep_full : Bool) (i : Nat) (st : SweepWalkState)
    (c : Cell) : SweepWalkState :=
  if !gc_marked c.bits then
    { st with pg_nfree := st.pg_nfree + 1,
              freelist := st.freelist ++ [i],
              cellsOut := st.cellsOut ++ [none] }
  else
    let bits1 := sweep_survivor_bits sweep_full c
    { st with
        prev_nold :=
          if c.age || c.bits == GC_OLD_MARKED then st.prev_nold + 1 else st.prev_nold,
        has_young :=
          if c.age || c.bits == GC_OLD_MARKED then st.has_young else true,
        has_marked := st.has_marked || gc_marked bits1,
        cellsOut := st.cellsOut ++ [some { bits := bits1, age := true }] }

/-- The sweep_page cell loop over the whole page, carrying the index of
the current cell. -/
def sweep_page_walk (sweep_full : Bool) : Nat → List Cell → SweepWalkState → SweepWalkState
  | _, [], st => st
  | i, c :: cs, st =>
    sweep_page_walk sweep_full (i + 1) cs (sweep_page_cell_step sweep_full i st c)

def sweep_walk_init : SweepWalkState :=
  { has_marked := false, has_young := false, prev_nold := 0, pg_nfree := 0,
    freelist := [], cellsOut := [] }

/-- src/gc-alloc.c lines 417-448: gc_reset_page, metadata part.  nfree is
reset to the page's total cell count ((GC_PAGE_SZ - GC_PAGE_OFFSET)/osize,
i.e. cells.length here), the age bitmap is zeroed, has_young and
has_marked are cleared and the freelist offsets get the -1 sentinel. -/
def gc_reset_page (pg : PageMeta) : PageMeta :=
  { pg with nfree := pg.cells.length,
            cells := pg.cells.map (fun c => { c with age := false }),
            has_young := false, has_marked := false, fl := [] }

/-- Result of sweep_page on one page: the page is returned to the page
allocator (freed), kept empty via gc_reset_page (the quick-sweep lazy
branch), skipped (quick-sweep fast path for pages with no young cell and
unchanged nold), or fully walked.  For the walked case the post-sweep
cell array is carried alongside the updated metadata. -/
inductive SweepPageOutcome where
  | freed
  | resetKept (pg : PageMeta)
  | skipped (pg : PageMeta)
  | walked (pg : PageMeta) (cellsOut : List (Option Cell))
  deriving Repr, DecidableEq

/-- src/gc.c lines 444-559: sweep_page.  lazy_ok stands for the
"lazy_freed_pages <= default_collect_interval / GC_PAGE_SZ" test and
prev_sweep_full for the global of the same name. -/
def sweep_page (sweep_full prev_sweep_full lazy_ok : Bool) (pg : PageMeta) :
    SweepPageOutcome :=
  if !pg.has_marked then
    if !sweep_full && lazy_ok then .resetKept (gc_reset_page pg)
    else .freed
  else if !sweep_full && !pg.has_young && (!prev_sweep_full || pg.prev_nold == pg.nold) then
    .skipped pg
  else
    let w := sweep_page_walk sweep_full 0 pg.cells sweep_walk_init
    .walked
      { pg with has_marked := w.has_marked, has_young := w.has_young,
                nfree := w.pg_nfree, fl := w.freelist,
                nold := if sweep_full then 0 else pg.nold,
                prev_nold := if sweep_full then w.prev_nold else pg.prev_nold }
      w.cellsOut

/-- Indices (from base i) of the cells whose mark bit is clear -- the
cells the walk puts on the freelist. -/
def unmarked_indices_from (i : Nat) : List Cell → List Nat
  | [] => []
  | c :: cs =>
    if !gc_marked c.bits then i :: unmarked_indices_from (i + 1) cs
    else unmarked_indices_from (i + 1) cs

def unmarked_count (cells : List Cell) : Nat :=
  (cells.filter (fun c => !gc_marked c.bits)).length

def marked_count (cells : List Cell) : Nat :=
  (cells.filter (fun c => gc_marked c.bits)).length

/-! ### Weak references (src/gc.c: clear_weak_refs;
src/gc-sweep.c: gc_sweep_weak_refs) -/

/-- The canonical null sentinel jl_nothing, as an object id. -/
def jl_nothing : Nat := 0

/-- A weak reference: its referent field. -/
structure WeakRef where
  value : Nat
  deriving Repr, DecidableEq

/-- src/gc.c lines 261-273: clear_weak_refs.  For every weak reference
on a mutator's weak_refs list, if the referent's mark bit is clear its
referent field becomes jl_nothing, otherwise it is left unchanged.
bits gives the header gc bits of each object id after marking. -/
def clear_weak_refs (bits : Nat → Nat) (wrs : List WeakRef) : List WeakRef :=
  wrs.map fun wr => if gc_marked (bits wr.value) then wr else { value := jl_nothing }

/-- The phases of _jl_gc_collect in source order (src/gc.c lines
829-1085): premark, root marking and the mark loop, weak-ref clearing,
finalizer-list sweeping, finalizer marking, the sweep phase (lines
977-1000), and the remset re-tag (lines 1005-1019). -/
inductive GcPhase where
  | premark
  | markLoop
  | clearWeakRefs
  | sweepFinalizerLists
  | markFinalizerLists
  | sweep
  | remsetRetag
  deriving Repr, DecidableEq

def collect_phase_order : List GcPhase :=
  [.premark, .markLoop, .clearWeakRefs, .sweepFinalizerLists, .markFinalizerLists,
   .sweep, .remsetRetag]

/-- The array swap performed by the gc_sweep_weak_refs compaction loop:
tmp = lst[a]; lst[a] = lst[b]; lst[b] = tmp. -/
def list_swap (lst : List Nat) (a b : Nat) : List Nat :=
  (lst.set a (lst.getD b 0)).set b (lst.getD a 0)

/-- src/gc-sweep.c lines 56-67: the gc_sweep_weak_refs compaction loop.
n counts marked survivors, ndel deleted (unmarked) entries; after each
classification, unless the loop breaks (n >= l - ndel), the entry at
position n is exchanged with the one at position n + ndel. -/
def gc_sweep_weak_refs_loop (marked : Nat → Bool) (l : Nat) (lst : List Nat)
    (n ndel : Nat) : List Nat × Nat :=
  if marked (lst.getD n 0) then
    if _h : n + 1 ≥ l - ndel then (lst, ndel)
    else gc_sweep_weak_refs_loop marked l (list_swap lst (n + 1) (n + 1 + ndel)) (n + 1) ndel
  else
    if _h : n ≥ l - (ndel + 1) then (lst, ndel + 1)
    else gc_sweep_weak_refs_loop marked l (list_swap lst n (n + ndel + 1)) n (ndel + 1)
termination_by l - (n + ndel)
decreasing_by all_goals omega

/-- src/gc-sweep.c lines 46-70: gc_sweep_weak_refs for one mutator's
weak_refs list.  marked tells whether the weak-reference object itself
has its mark bit set; the list length shrinks by the number of deleted
entries. -/
def gc_sweep_weak_refs (marked : Nat → Bool) (lst : List Nat) : List Nat :=
  let l := lst.length
  if l == 0 then lst
  else
    let r := gc_sweep_weak_refs_loop marked l lst 0 0
    r.fst.take (l - r.snd)

/-! ### Finalizer discovery (src/gc.c lines 755-794: sweep_finalizer_list;
schedule_finalization appends the pair to the global to_finalize list) -/

/-- isfreed: the (tag-cleared) object's mark bit is clear. -/
def finalizer_entry_isfreed (bits : Nat → Nat) (v0 : Nat) : Bool :=
  !gc_marked (bits (gc_ptr_clear_tag v0))

/-- isold: only for a per-mutator list (not finalizer_list_marked), both
the object and the callback have bits GC_OLD_MARKED. -/
def finalizer_entry_isold (isMarkedList : Bool) (bits : Nat → Nat) (v0 fin : Nat) : Bool :=
  !isMarkedList && bits (gc_ptr_clear_tag v0) == GC_OLD_MARKED
    && bits fin == GC_OLD_MARKED

/-- Output of sweep_finalizer_list: the compacted list, the pairs passed
to schedule_finalization (appended to to_finalize) and the pairs pushed
onto finalizer_list_marked. -/
structure FinSweepState where
  kept : List (Nat × Nat)
  to_finalize : List (Nat × Nat)
  marked_additions : List (Nat × Nat)
  deriving Repr, DecidableEq

/-- src/gc.c lines 755-794: sweep_finalizer_list.  Entries are
(object, callback) pairs; a null object slot (v0 = 0) is dropped.
isfreed entries go to to_finalize via schedule_finalization, isold
entries are pushed onto finalizer_list_marked; all other entries are
compacted in place (kept in order). -/
def sweep_finalizer_step (isMarkedList : Bool) (bits : Nat → Nat)
    (st : FinSweepState) (e : Nat × Nat) : FinSweepState :=
  if e.1 == 0 then st
  else
    let isfreed := finalizer_entry_isfreed bits e.1
    let isold := finalizer_entry_isold isMarkedList bits e.1 e.2
    { kept := if isfreed || isold then st.kept else st.kept ++ [e],
      to_finalize := if isfreed then st.to_finalize ++ [e] else st.to_finalize,
      marked_additions :=
        if isold then st.marked_additions ++ [e] else st.marked_additions }

def sweep_finalizer_list (isMarkedList : Bool) (bits : Nat → Nat)
    (entries : List (Nat × Nat)) : FinSweepState :=
  entries.foldl (sweep_finalizer_step isMarkedList bits)
    { kept := [], to_finalize := [], marked_additions := [] }

/-- The predicate deciding that sweep_finalizer_list keeps an entry. -/
def finalizer_entry_kept (isMarkedList : Bool) (bits : Nat → Nat) (e : Nat × Nat) : Bool :=
  e.1 != 0 && !(finalizer_entry_isfreed bits e.1
    || finalizer_entry_isold isMarkedList bits e.1 e.2)

/-- The predicate deciding that sweep_finalizer_list schedules an entry
for finalization. -/
def finalizer_entry_scheduled (bits : Nat → Nat) (e : Nat × Nat) : Bool :=
  e.1 != 0 && finalizer_entry_isfreed bits e.1

/-- The predicate deciding that sweep_finalizer_list moves an entry to
finalizer_list_marked. -/
def finalizer_entry_promoted (isMarkedList : Bool) (bits : Nat → Nat) (e : Nat × Nat) : Bool :=
  e.1 != 0 && finalizer_entry_isold isMarkedList bits e.1 e.2

end JuliaGC

namespace JuliaGC

/-! ### Theorems for C9 and C7 -/

/-- C9: for every string s and size sz with sz ≤ length of s,
jl_gc_realloc_string returns s itself: no allocation, no copy, no change
to the header or backing storage. -/
theorem realloc_string_shrink_returns_self (s : JlString) (sz : Nat)
    (h : sz ≤ s.len) :
    jl_gc_realloc_string s sz = .same s := by
  unfold jl_gc_realloc_string
  simp [h]

/-- Witness for C9 at a concrete input. -/
theorem realloc_string_shrink_returns_self_witness :
    jl_gc_realloc_string { len := 5, bits := GC_CLEAN, data := [104, 101, 108, 108, 111] } 3
      = .same { len := 5, bits := GC_CLEAN, data := [104, 101, 108, 108, 111] } :=
  realloc_string_shrink_returns_self _ 3 (by decide)

/-- C7: a successful big allocation allocates
LLT_ALIGN(sz + offsetof(bigval_t, header), cache alignment) bytes and the
returned header has age PROMOTE_AGE, gc bits GC_OLD, and sits at the
head of the mutator's big_objects list. -/
theorem big_alloc_header_and_link (big_objects : List BigVal) (sz : Nat)
    (v : BigVal) (rest : List BigVal)
    (h : jl_gc_big_alloc_inner big_objects sz = .ok (v, rest)) :
    v.age = PROMOTE_AGE ∧ v.bits = GC_OLD ∧
    v.sz = LLT_ALIGN (sz + bigval_header_offset) JL_CACHE_BYTE_ALIGNMENT % 2 ^ 64 ∧
    rest = v :: big_objects := by
  unfold jl_gc_big_alloc_inner at h
  dsimp only at h
  split at h
  · simp at h
  · rw [Except.ok.injEq, Prod.mk.injEq] at h
    obtain ⟨hv, hrest⟩ := h
    subst hv
    exact ⟨rfl, rfl, rfl, hrest.symm⟩

/-! ### Theorems for C2 (work-stealing queue) -/

/-- C2 counterexample: the queue is the idempotent work-stealing stack,
not a Chase-Lev top/bottom deque.  With elements 10 (pushed first,
stored at buffer index 0) and 20 (pushed second), a successful steal
returns 20 -- the most recently pushed element, the same one pop
returns -- and not the element at the low index that the claim names. -/
theorem ws_queue_steal_counterexample :
    (ws_queue_steal_from wsq_example).fst = some 20 ∧
    wsq_example.buffer.getD 0 0 = 10 ∧
    (ws_queue_steal_from wsq_example).fst ≠ some (wsq_example.buffer.getD 0 0) ∧
    (ws_queue_pop wsq_example).fst = (ws_queue_steal_from wsq_example).fst := by
  decide

/-- C2 amended: whenever the anchor's tail is positive, steal returns
the element at buffer index tail-1 (the most recently pushed one) and
publishes the anchor (tail-1, tag); pop removes from the same end. -/
theorem ws_queue_steal_takes_tail_end (q : WsQueue) (h : 0 < q.tail) :
    ws_queue_steal_from q
      = (some (q.buffer.getD (q.tail - 1) 0), { q with tail := q.tail - 1 }) ∧
    ws_queue_pop q
      = (some (q.buffer.getD (q.tail - 1) 0), { q with tail := q.tail - 1 }) := by
  have ht : ¬ q.tail = 0 := Nat.pos_iff_ne_zero.mp h
  constructor <;> simp [ws_queue_steal_from, ws_queue_pop, ht]

/-- Witness for the amended C2 theorem at a concrete queue. -/
theorem ws_queue_steal_takes_tail_end_witness :
    0 < wsq_example.tail ∧
    (ws_queue_steal_from wsq_example
        = (some (wsq_example.buffer.getD (wsq_example.tail - 1) 0),
           { wsq_example with tail := wsq_example.tail - 1 }) ∧
     ws_queue_pop wsq_example
        = (some (wsq_example.buffer.getD (wsq_example.tail - 1) 0),
           { wsq_example with tail := wsq_example.tail - 1 })) :=
  ⟨by decide, ws_queue_steal_takes_tail_end wsq_example (by decide)⟩

/-! ### Theorems for C6 and C8 (collector controller) -/

/-- The recollect flag computed by _jl_gc_collect is set exactly for a
FULL trigger. -/
theorem collect_decision_recollect_iff (collection : GcCollection) (h : HeuristicState) :
    (collect_decision collection h).recollect = true ↔ collection = GcCollection.full := by
  cases collection <;> simp [collect_decision]

/-- C6: a collect(FULL) that actually performs a collection runs exactly
one additional AUTO collection inside the same stop-the-world episode,
and a recollection is requested iff the triggering kind was FULL (in
particular the second AUTO run never requests a third). -/
theorem collect_full_runs_one_extra_auto (g : CollectorGlobals) (allocd : Int)
    (h1 : HeuristicState) (hd : g.disable_counter = 0) :
    (jl_gc_collect g allocd GcCollection.full h1).runs
      = [GcCollection.full, GcCollection.auto] ∧
    (∀ collection h, (collect_decision collection h).recollect = true
        ↔ collection = GcCollection.full) := by
  refine ⟨?_, fun collection h => collect_decision_recollect_iff collection h⟩
  have hrec : (collect_decision GcCollection.full h1).recollect = true :=
    (collect_decision_recollect_iff GcCollection.full h1).mpr rfl
  simp [jl_gc_collect, hd, hrec]

/-- Witness for C6 at concrete globals and heuristic inputs. -/
theorem collect_full_runs_one_extra_auto_witness :
    ({ disable_counter := 0, interval := default_collect_interval, deferred_alloc := 0 : CollectorGlobals }).disable_counter = 0 ∧
    ((jl_gc_collect
        { disable_counter := 0, interval := default_collect_interval, deferred_alloc := 0 }
        (-1000) GcCollection.full
        { estimate_freed := 0, actual_allocd := 1000, remset_nptr := 0,
          interval := default_collect_interval,
          max_collect_interval := 1250000000,
          live_bytes := 0, max_total_memory := 2199023255552,
          gc_sweep_always_full := false }).runs
      = [GcCollection.full, GcCollection.auto] ∧
     (∀ collection h, (collect_decision collection h).recollect = true
        ↔ collection = GcCollection.full)) :=
  ⟨rfl, collect_full_runs_one_extra_auto _ (-1000) _ rfl⟩

/-- C8: a collect() issued while the global disable counter is nonzero
performs no collection at all (no _jl_gc_collect run, hence no marking,
no sweeping, no header changes); the only effect is that allocd plus the
current interval is added to deferred_alloc and allocd is reset to
-interval. -/
theorem collect_disabled_defers_only (g : CollectorGlobals) (allocd : Int)
    (collection : GcCollection) (h1 : HeuristicState)
    (hd : g.disable_counter ≠ 0) :
    jl_gc_collect g allocd collection h1 =
      { globals := { g with
          deferred_alloc := g.deferred_alloc + (allocd + (g.interval : Int)) },
        allocd := -(g.interval : Int), runs := [] } := by
  simp [jl_gc_collect, hd]

/-- Witness for C8 at concrete inputs. -/
theorem collect_disabled_defers_only_witness :
    ({ disable_counter := 1, interval := 100, deferred_alloc := 7 : CollectorGlobals }).disable_counter ≠ 0 ∧
    jl_gc_collect { disable_counter := 1, interval := 100, deferred_alloc := 7 }
        (-40) GcCollection.auto
        { estimate_freed := 0, actual_allocd := 0, remset_nptr := 0, interval := 100,
          max_collect_interval := 1250000000, live_bytes := 0,
          max_total_memory := 2199023255552, gc_sweep_always_full := false } =
      { globals := { disable_counter := 1, interval := 100, deferred_alloc := 7 + (-40 + 100) },
        allocd := -100, runs := [] } :=
  ⟨by decide, collect_disabled_defers_only _ (-40) GcCollection.auto _ (by decide)⟩

/-- Witness for C7 at a concrete input. -/
theorem big_alloc_header_and_link_witness :
    { sz := 64, age := PROMOTE_AGE, bits := GC_OLD : BigVal }.age = PROMOTE_AGE ∧
    { sz := 64, age := PROMOTE_AGE, bits := GC_OLD : BigVal }.bits = GC_OLD ∧
    { sz := 64, age := PROMOTE_AGE, bits := GC_OLD : BigVal }.sz
      = LLT_ALIGN (8 + bigval_header_offset) JL_CACHE_BYTE_ALIGNMENT % 2 ^ 64 ∧
    [{ sz := 64, age := PROMOTE_AGE, bits := GC_OLD : BigVal }]
      = [{ sz := 64, age := PROMOTE_AGE, bits := GC_OLD : BigVal }] :=
  big_alloc_header_and_link [] 8
    { sz := 64, age := PROMOTE_AGE, bits := GC_OLD }
    [{ sz := 64, age := PROMOTE_AGE, bits := GC_OLD }] (by rfl)

/-! ### Theorems for C1 (post-sweep mark bits) -/

/-- Helper: the sweep transition never outputs GC_MARKED for a marked
cell. -/
theorem sweep_survivor_bits_ne_marked (sf : Bool) (c : Cell) :
    sweep_survivor_bits sf c ≠ GC_MARKED := by
  unfold sweep_survivor_bits
  by_cases ha : (c.age || (c.bits == GC_OLD_MARKED)) = true
  · rw [if_pos ha]
    by_cases hb : (sf || (c.bits == GC_MARKED)) = true
    · rw [if_pos hb]; decide
    · rw [if_neg hb]
      intro hEq
      exact hb (by simp [hEq])
  · rw [if_neg ha]; decide

/-- Helper: a full sweep performs no remset re-tag. -/
theorem remset_retag_bits_full (inRem : Bool) (b : Nat) :
    remset_retag_bits true inRem b = b := by
  simp [remset_retag_bits]

/-- Helper: objects outside the remset are not re-tagged. -/
theorem remset_retag_bits_notin (sf : Bool) (b : Nat) :
    remset_retag_bits sf false b = b := by
  simp [remset_retag_bits]

/-- C1 counterexample: a reachable remset object (premarked
GC_OLD_MARKED, age bit set) still has gc bits GC_MARKED when the
stop-the-world episode ends after a quick sweep, because the post-sweep
re-tag loop (src/gc.c lines 1005-1014) deliberately sets remset entries
back to GC_MARKED.  This falsifies "no reachable object has GC bits
MARKED when the sweep phase has completed". -/
theorem post_sweep_remset_marked_counterexample :
    gc_cycle_final_bits false true { bits := GC_OLD_MARKED, age := true }
      = some GC_MARKED := by
  decide

/-- C1 amended: the sweep itself never leaves a surviving cell MARKED
(a cell that was GC_MARKED is reverted to GC_CLEAN or promoted to
GC_OLD), and at the end of the episode the only surviving objects with
bits GC_MARKED are the remset entries re-tagged by a quick sweep; after
a full sweep, or outside the remset, no surviving object is MARKED. -/
theorem post_sweep_no_marked_outside_remset (sf inRem : Bool) (c : Cell) (b : Nat)
    (h : gc_cycle_final_bits sf inRem c = some b) :
    (sf = true ∨ inRem = false → b ≠ GC_MARKED) ∧
    (c.bits = GC_MARKED →
       sweep_survivor_bits sf c = GC_CLEAN ∨ sweep_survivor_bits sf c = GC_OLD) ∧
    (sf = false → inRem = true → b = GC_MARKED) := by
  unfold gc_cycle_final_bits at h
  by_cases hm : gc_marked c.bits = true
  · rw [if_pos hm, Option.some.injEq] at h
    subst h
    refine ⟨?_, ?_, ?_⟩
    · rintro (hsf | hrem)
      · subst hsf
        rw [remset_retag_bits_full]
        exact sweep_survivor_bits_ne_marked true c
      · subst hrem
        rw [remset_retag_bits_notin]
        exact sweep_survivor_bits_ne_marked sf c
    · intro hmk
      unfold sweep_survivor_bits
      rw [hmk]
      by_cases ha : (c.age || (GC_MARKED == GC_OLD_MARKED)) = true
      · rw [if_pos ha, if_pos (by simp)]
        exact Or.inr rfl
      · rw [if_neg ha]
        exact Or.inl rfl
    · intro hsf hrem
      subst hsf; subst hrem
      simp [remset_retag_bits]
  · rw [if_neg hm] at h
    cases h

/-- Witness for the amended C1 theorem: a young marked cell under a full
sweep ends GC_CLEAN. -/
theorem post_sweep_no_marked_outside_remset_witness :
    gc_cycle_final_bits true false { bits := GC_MARKED, age := false } = some GC_CLEAN ∧
    ((true = true ∨ false = false → GC_CLEAN ≠ GC_MARKED) ∧
     (({ bits := GC_MARKED, age := false : Cell }).bits = GC_MARKED →
        sweep_survivor_bits true { bits := GC_MARKED, age := false } = GC_CLEAN ∨
        sweep_survivor_bits true { bits := GC_MARKED, age := false } = GC_OLD) ∧
     (true = false → false = true → GC_CLEAN = GC_MARKED)) :=
  ⟨by decide,
   post_sweep_no_marked_outside_remset true false { bits := GC_MARKED, age := false }
     GC_CLEAN (by decide)⟩

/-! ### Theorems for C3 (page sweep accounting) -/

/-- The sweep_page cell loop counts exactly the unmarked cells into
pg_nfree and threads exactly their indices onto the freelist. -/
theorem sweep_page_walk_spec (sf : Bool) :
    ∀ (cells : List Cell) (i : Nat) (st : SweepWalkState),
      (sweep_page_walk sf i cells st).pg_nfree = st.pg_nfree + unmarked_count cells ∧
      (sweep_page_walk sf i cells st).freelist
        = st.freelist ++ unmarked_indices_from i cells := by
  intro cells
  induction cells with
  | nil =>
    intro i st
    simp [sweep_page_walk, unmarked_count, unmarked_indices_from]
  | cons c cs ih =>
    intro i st
    cases hgm : gc_marked c.bits <;>
      (simp [sweep_page_walk, sweep_page_cell_step, hgm, unmarked_count,
             unmarked_indices_from, List.filter_cons, ih]
       try omega)

/-- Unmarked and marked cells partition the cell array. -/
theorem unmarked_add_marked_count (cells : List Cell) :
    unmarked_count cells + marked_count cells = cells.length := by
  induction cells with
  | nil => simp [unmarked_count, marked_count]
  | cons c cs ih =>
    cases hgm : gc_marked c.bits <;>
      simp [unmarked_count, marked_count, List.filter_cons, hgm] at ih ⊢ <;>
      omega

/-- C3: after sweep_page processes a page, nfree plus the number of
surviving (marked) cells equals the page's total cell count, and in the
cell-walk path the rebuilt freelist holds exactly the unmarked cells.
Hypotheses: the page metadata was consistent before the sweep (nfree
counts the unmarked cells) and a page with has_marked = false holds no
marked cell (spec invariant 5, established by the mark phase). -/
theorem sweep_page_nfree_invariant (sf psf lz : Bool) (pg : PageMeta)
    (h1 : pg.nfree = unmarked_count pg.cells)
    (h2 : pg.has_marked = false → marked_count pg.cells = 0) :
    match sweep_page sf psf lz pg with
    | .freed => True
    | .resetKept pg2 => pg2.nfree + marked_count pg.cells = pg.cells.length
    | .skipped pg2 => pg2.nfree + marked_count pg.cells = pg.cells.length
    | .walked pg2 _ =>
        pg2.nfree + marked_count pg.cells = pg.cells.length ∧
        pg2.fl = unmarked_indices_from 0 pg.cells := by
  have hsum := unmarked_add_marked_count pg.cells
  unfold sweep_page
  by_cases hhm : pg.has_marked = true
  · by_cases hskip : (!sf && !pg.has_young && (!psf || pg.prev_nold == pg.nold)) = true
    · simp only [hhm, Bool.not_true, Bool.false_eq_true, if_false, if_pos hskip]
      omega
    · have hw := sweep_page_walk_spec sf pg.cells 0 sweep_walk_init
      simp only [sweep_walk_init] at hw
      simp only [hhm, Bool.not_true, Bool.false_eq_true, if_false, if_neg hskip,
                 sweep_walk_init]
      refine ⟨?_, ?_⟩
      · have h1w := hw.1
        omega
      · have h2w := hw.2
        simpa using h2w
  · have hf : pg.has_marked = false := by simpa using hhm
    have hmc : marked_count pg.cells = 0 := h2 hf
    by_cases hlz : (!sf && lz) = true
    · simp only [hf, Bool.not_false, if_true, if_pos hlz, gc_reset_page]
      omega
    · simp only [hf, Bool.not_false, if_true, if_neg hlz]

/-- Witness for C3: a three-cell page (one young marked, one clean dead,
one old marked) under a quick sweep takes the walk path: nfree becomes 1,
the freelist holds exactly cell 1, and 1 + 2 surviving cells = 3. -/
theorem sweep_page_nfree_invariant_witness :
    (({ has_marked := true, has_young := true, nold := 1, prev_nold := 1, nfree := 1,
        fl := [1],
        cells := [{ bits := GC_MARKED, age := false },
                  { bits := GC_CLEAN, age := false },
                  { bits := GC_OLD_MARKED, age := true }] : PageMeta }).nfree
      = unmarked_count
          [{ bits := GC_MARKED, age := false },
           { bits := GC_CLEAN, age := false },
           { bits := GC_OLD_MARKED, age := true }]) ∧
    (match sweep_page false true true
        { has_marked := true, has_young := true, nold := 1, prev_nold := 1, nfree := 1,
          fl := [1],
          cells := [{ bits := GC_MARKED, age := false },
                    { bits := GC_CLEAN, age := false },
                    { bits := GC_OLD_MARKED, age := true }] } with
     | .freed => True
     | .resetKept pg2 =>
         pg2.nfree + marked_count
           [{ bits := GC_MARKED, age := false },
            { bits := GC_CLEAN, age := false },
            { bits := GC_OLD_MARKED, age := true }] = 3
     | .skipped pg2 =>
         pg2.nfree + marked_count
           [{ bits := GC_MARKED, age := false },
            { bits := GC_CLEAN, age := false },
            { bits := GC_OLD_MARKED, age := true }] = 3
     | .walked pg2 _ =>
         pg2.nfree + marked_count
           [{ bits := GC_MARKED, age := false },
            { bits := GC_CLEAN, age := false },
            { bits := GC_OLD_MARKED, age := true }] = 3 ∧
         pg2.fl = unmarked_indices_from 0
           [{ bits := GC_MARKED, age := false },
            { bits := GC_CLEAN, age := false },
            { bits := GC_OLD_MARKED, age := true }]) :=
  ⟨by decide,
   sweep_page_nfree_invariant false true true
     { has_marked := true, has_young := true, nold := 1, prev_nold := 1, nfree := 1,
       fl := [1],
       cells := [{ bits := GC_MARKED, age := false },
                 { bits := GC_CLEAN, age := false },
                 { bits := GC_OLD_MARKED, age := true }] }
     (by decide) (by decide)⟩

/-! ### Theorems for C4 (weak-reference clearing) -/

/-- C4: every weak reference on a weak_refs list at collection time keeps
its referent field when the referent's mark bit is set, and has it
replaced by jl_nothing otherwise; the list keeps its length; and the
clearing phase (clear_weak_refs) runs strictly before the sweep phase in
_jl_gc_collect. -/
theorem clear_weak_refs_nulls_unmarked (bits : Nat → Nat) (wrs : List WeakRef) :
    (∀ i : Nat,
       (clear_weak_refs bits wrs).get? i
         = (wrs.get? i).map
             (fun wr =>
               if gc_marked (bits wr.value) then wr else { value := jl_nothing })) ∧
    (clear_weak_refs bits wrs).length = wrs.length ∧
    collect_phase_order.indexOf GcPhase.clearWeakRefs
      < collect_phase_order.indexOf GcPhase.sweep := by
  refine ⟨fun i => ?_, ?_, ?_⟩
  · simp [clear_weak_refs]
  · simp [clear_weak_refs]
  · decide

/-! ### Theorems for C10 (gc_sweep_weak_refs compaction) -/

/-- Helper: getD past an appended prefix. -/
theorem getD_append_add (A l2 : List Nat) (k d : Nat) :
    (A ++ l2).getD (A.length + k) d = l2.getD k d := by
  induction A with
  | nil => simp
  | cons a A ih =>
    have hlen : (a :: A).length + k = (A.length + k) + 1 := by simp; omega
    rw [List.cons_append, hlen]
    simpa using ih

/-- Helper: set past an appended prefix. -/
theorem set_append_add (A l2 : List Nat) (k x : Nat) :
    (A ++ l2).set (A.length + k) x = A ++ l2.set k x := by
  induction A with
  | nil => simp
  | cons a A ih =>
    have hlen : (a :: A).length + k = (A.length + k) + 1 := by simp; omega
    rw [List.cons_append, hlen]
    simp [ih]

/-- Helper: take past an appended prefix. -/
theorem take_append_add (A l2 : List Nat) (k : Nat) :
    (A ++ l2).take (A.length + k) = A ++ l2.take k := by
  induction A with
  | nil => simp
  | cons a A ih =>
    have hlen : (a :: A).length + k = (A.length + k) + 1 := by simp; omega
    rw [List.cons_append, hlen]
    simp [ih]

/-- Helper: reading the element right after a prefix. -/
theorem getD_append_cons (A : List Nat) (x : Nat) (r : List Nat) (d : Nat) :
    (A ++ x :: r).getD A.length d = x := by
  have h := getD_append_add A (x :: r) 0 d
  simpa using h

/-- Helper: overwriting the element right after a prefix. -/
theorem set_append_cons (B : List Nat) (c x : Nat) (C2 : List Nat) :
    (B ++ c :: C2).set B.length x = B ++ x :: C2 := by
  have h := set_append_add B (c :: C2) 0 x
  simpa using h

/-- Helper: the swap skips over a common cons prefix. -/
theorem list_swap_cons (a : Nat) (l : List Nat) (i j : Nat) :
    list_swap (a :: l) (i + 1) (j + 1) = a :: list_swap l i j := by
  simp [list_swap]

/-- Helper: the swap skips over a common list prefix. -/
theorem list_swap_prefix (P l : List Nat) (j : Nat) :
    list_swap (P ++ l) P.length (P.length + j) = P ++ list_swap l 0 j := by
  induction P with
  | nil => simp
  | cons p P ih =>
    have h1 : (p :: P).length = P.length + 1 := by simp
    rw [List.cons_append, h1]
    have h2 : P.length + 1 + j = (P.length + j) + 1 := by omega
    rw [h2, list_swap_cons, ih]
    rfl

/-- The swap done after classifying a marked entry: the first unexamined
element is brought to the scan position and the displaced deleted entry
is parked inside the deleted block (whose contents we need not track). -/
theorem list_swap_after_survivor (B : List Nat) (c : Nat) (C2 : List Nat) :
    ∃ B2 : List Nat, B2.length = B.length ∧
      list_swap (B ++ c :: C2) 0 B.length = c :: (B2 ++ C2) := by
  cases B with
  | nil => exact ⟨[], rfl, by simp [list_swap]⟩
  | cons b B1 =>
    refine ⟨B1 ++ [b], by simp, ?_⟩
    unfold list_swap
    simp only [List.cons_append, List.length_cons, List.getD_cons_succ,
               List.getD_cons_zero, List.set_cons_zero, List.set_cons_succ]
    rw [getD_append_cons, set_append_cons]
    simp

/-- The swap done after classifying an unmarked entry: the unmarked entry
moves to the end of the (grown) deleted block and the first unexamined
element takes the scan position. -/
theorem list_swap_after_deleted (cur c : Nat) (B C2 : List Nat) :
    list_swap (cur :: (B ++ c :: C2)) 0 (B.length + 1)
      = c :: ((B ++ [cur]) ++ C2) := by
  unfold list_swap
  simp only [List.getD_cons_succ, List.getD_cons_zero, List.set_cons_zero,
             List.set_cons_succ]
  rw [getD_append_cons, set_append_cons]
  simp

/-- Invariant of the gc_sweep_weak_refs compaction loop: starting from a
state split as (survivors A) ++ (entry under scan) :: (deleted block B ++
unexamined C), the loop terminates with the surviving prefix equal to
A followed by the marked entries of cur :: C (in order) and with ndel
equal to B.length plus the number of unmarked entries of cur :: C. -/
theorem gc_sweep_weak_refs_loop_spec (marked : Nat → Bool) :
    ∀ (C A B : List Nat) (cur : Nat),
      ((gc_sweep_weak_refs_loop marked (A ++ cur :: (B ++ C)).length
          (A ++ cur :: (B ++ C)) A.length B.length).fst.take
        ((A ++ cur :: (B ++ C)).length
          - (gc_sweep_weak_refs_loop marked (A ++ cur :: (B ++ C)).length
              (A ++ cur :: (B ++ C)) A.length B.length).snd)
        = A ++ (cur :: C).filter marked) ∧
      (gc_sweep_weak_refs_loop marked (A ++ cur :: (B ++ C)).length
          (A ++ cur :: (B ++ C)) A.length B.length).snd
        = B.length + ((cur :: C).filter (fun x => !marked x)).length := by
  intro C
  induction C with
  | nil =>
    intro A B cur
    simp only [List.append_nil]
    unfold gc_sweep_weak_refs_loop
    rw [getD_append_cons]
    by_cases hc : marked cur = true
    · rw [if_pos hc]
      have hguard : A.length + 1 ≥ (A ++ cur :: B).length - B.length := by
        simp
        try omega
      rw [dif_pos hguard]
      constructor
      · have htake : (A ++ cur :: B).length - B.length = A.length + 1 := by
          simp
          try omega
        rw [htake, take_append_add]
        simp [List.filter_cons, hc]
      · simp [List.filter_cons, hc]
    · have hcf : marked cur = false := by simpa using hc
      rw [if_neg hc]
      have hguard : A.length ≥ (A ++ cur :: B).length - (B.length + 1) := by
        simp
        try omega
      rw [dif_pos hguard]
      constructor
      · have htake : (A ++ cur :: B).length - (B.length + 1) = A.length + 0 := by
          simp
          try omega
        rw [htake, take_append_add]
        simp [List.filter_cons, hcf]
      · simp [List.filter_cons, hcf]
  | cons c C2 ih =>
    intro A B cur
    unfold gc_sweep_weak_refs_loop
    rw [getD_append_cons]
    by_cases hc : marked cur = true
    · rw [if_pos hc]
      have hguard : ¬ A.length + 1 ≥ (A ++ cur :: (B ++ c :: C2)).length - B.length := by
        simp
        try omega
      rw [dif_neg hguard]
      obtain ⟨B2, hB2len, hswap⟩ := list_swap_after_survivor B c C2
      have hsw : list_swap (A ++ cur :: (B ++ c :: C2)) (A.length + 1)
            (A.length + 1 + B.length) = (A ++ [cur]) ++ c :: (B2 ++ C2) := by
        have hP : A ++ cur :: (B ++ c :: C2) = (A ++ [cur]) ++ (B ++ c :: C2) := by simp
        have hi : A.length + 1 = (A ++ [cur]).length := by simp
        rw [hP, hi, list_swap_prefix, hswap]
      rw [hsw]
      have hIH := ih (A ++ [cur]) B2 c
      have hlen : (A ++ cur :: (B ++ c :: C2)).length
          = ((A ++ [cur]) ++ c :: (B2 ++ C2)).length := by
        simp
        try omega
      have hn : A.length + 1 = (A ++ [cur]).length := by simp
      have hnd : B.length = B2.length := hB2len.symm
      rw [hlen, hn, hnd]
      refine ⟨?_, ?_⟩
      · rw [hIH.1]
        simp [List.filter_cons, hc]
      · rw [hIH.2]
        simp [List.filter_cons, hc]
    · have hcf : marked cur = false := by simpa using hc
      rw [if_neg hc]
      have hguard : ¬ A.length ≥ (A ++ cur :: (B ++ c :: C2)).length - (B.length + 1) := by
        simp
        try omega
      rw [dif_neg hguard]
      have hsw : list_swap (A ++ cur :: (B ++ c :: C2)) A.length
            (A.length + B.length + 1) = A ++ c :: ((B ++ [cur]) ++ C2) := by
        have hj : A.length + B.length + 1 = A.length + (B.length + 1) := by omega
        rw [hj, list_swap_prefix, list_swap_after_deleted]
      rw [hsw]
      have hIH := ih A (B ++ [cur]) c
      have hlen : (A ++ cur :: (B ++ c :: C2)).length
          = (A ++ c :: ((B ++ [cur]) ++ C2)).length := by
        simp
        try omega
      have hnd : B.length + 1 = (B ++ [cur]).length := by simp
      rw [hlen, hnd]
      refine ⟨?_, ?_⟩
      · rw [hIH.1]
        simp [List.filter_cons, hcf]
      · rw [hIH.2]
        simp [List.filter_cons, hcf]
        omega

/-- Marked and unmarked entries partition the list. -/
theorem filter_length_partition (marked : Nat → Bool) (lst : List Nat) :
    (lst.filter marked).length + (lst.filter (fun x => !marked x)).length
      = lst.length := by
  induction lst with
  | nil => simp
  | cons x xs ih =>
    cases hx : marked x <;> simp [List.filter_cons, hx] <;> omega

/-- C10: gc_sweep_weak_refs removes exactly the unmarked entries -- the
resulting list is precisely the marked entries that were present (here
proved with order preserved, which subsumes the multiset statement), and
the length drops by the number of unmarked entries. -/
theorem gc_sweep_weak_refs_keeps_marked (marked : Nat → Bool) (lst : List Nat) :
    gc_sweep_weak_refs marked lst = lst.filter marked ∧
    (gc_sweep_weak_refs marked lst).length
      = lst.length - (lst.filter (fun x => !marked x)).length := by
  have hpart := filter_length_partition marked lst
  cases lst with
  | nil => simp [gc_sweep_weak_refs]
  | cons x xs =>
    have h := gc_sweep_weak_refs_loop_spec marked xs [] [] x
    simp only [List.nil_append, List.length_nil] at h
    unfold gc_sweep_weak_refs
    have hne : ((x :: xs).length == 0) = false := by simp
    rw [if_neg (by simp [hne])]
    refine ⟨h.1, ?_⟩
    rw [h.1]
    simp only [List.filter_cons] at hpart ⊢
    omega

/-! ### Theorems for C5 (finalizer-list sweeping) -/

/-- The sweep_finalizer_list fold, characterized on an arbitrary initial
accumulator: the three output lists are the initial ones extended by the
kept / scheduled / promoted entries in order. -/
theorem sweep_finalizer_fold_spec (isMarkedList : Bool) (bits : Nat → Nat) :
    ∀ (entries : List (Nat × Nat)) (st : FinSweepState),
      entries.foldl (sweep_finalizer_step isMarkedList bits) st
        = { kept := st.kept ++ entries.filter (finalizer_entry_kept isMarkedList bits),
            to_finalize := st.to_finalize ++ entries.filter (finalizer_entry_scheduled bits),
            marked_additions :=
              st.marked_additions
                ++ entries.filter (finalizer_entry_promoted isMarkedList bits) } := by
  intro entries
  induction entries with
  | nil => intro st; simp
  | cons e es ih =>
    intro st
    rw [List.foldl_cons, ih]
    by_cases hz : e.1 = 0
    · simp [sweep_finalizer_step, finalizer_entry_kept, finalizer_entry_scheduled,
            finalizer_entry_promoted, hz, List.filter_cons]
    · cases hf : finalizer_entry_isfreed bits e.1 <;>
        cases ho : finalizer_entry_isold isMarkedList bits e.1 e.2 <;>
          simp [sweep_finalizer_step, finalizer_entry_kept, finalizer_entry_scheduled,
                finalizer_entry_promoted, hz, hf, ho, List.filter_cons]

/-- The three output lists of sweep_finalizer_list are exactly the
filters of the input by the kept / scheduled / promoted predicates. -/
theorem sweep_finalizer_list_filters (isMarkedList : Bool) (bits : Nat → Nat)
    (entries : List (Nat × Nat)) :
    sweep_finalizer_list isMarkedList bits entries
      = { kept := entries.filter (finalizer_entry_kept isMarkedList bits),
          to_finalize := entries.filter (finalizer_entry_scheduled bits),
          marked_additions :=
            entries.filter (finalizer_entry_promoted isMarkedList bits) } := by
  unfold sweep_finalizer_list
  rw [sweep_finalizer_fold_spec]
  simp

/-- C5: a pair whose object is unmarked is removed from the list and
scheduled on to_finalize; a pair of a per-mutator list whose object and
callback are both GC_OLD_MARKED is removed and pushed onto
finalizer_list_marked; any other (non-null) pair remains in the list and
is moved nowhere. -/
theorem sweep_finalizer_list_moves (isMarkedList : Bool) (bits : Nat → Nat)
    (entries : List (Nat × Nat)) (v0 fin : Nat)
    (hmem : (v0, fin) ∈ entries) (hnz : v0 ≠ 0) :
    (finalizer_entry_isfreed bits v0 = true →
       (v0, fin) ∈ (sweep_finalizer_list isMarkedList bits entries).to_finalize ∧
       (v0, fin) ∉ (sweep_finalizer_list isMarkedList bits entries).kept) ∧
    (finalizer_entry_isfreed bits v0 = false →
     finalizer_entry_isold isMarkedList bits v0 fin = true →
       (v0, fin) ∈ (sweep_finalizer_list isMarkedList bits entries).marked_additions ∧
       (v0, fin) ∉ (sweep_finalizer_list isMarkedList bits entries).kept) ∧
    (finalizer_entry_isfreed bits v0 = false →
     finalizer_entry_isold isMarkedList bits v0 fin = false →
       (v0, fin) ∈ (sweep_finalizer_list isMarkedList bits entries).kept ∧
       (v0, fin) ∉ (sweep_finalizer_list isMarkedList bits entries).to_finalize ∧
       (v0, fin) ∉ (sweep_finalizer_list isMarkedList bits entries).marked_additions) := by
  rw [sweep_finalizer_list_filters]
  refine ⟨fun hf => ?_, fun hf ho => ?_, fun hf ho => ?_⟩
  · constructor
    · simp [List.mem_filter, finalizer_entry_scheduled, hnz, hf, hmem]
    · simp [List.mem_filter, finalizer_entry_kept, hf]
  · constructor
    · simp [List.mem_filter, finalizer_entry_promoted, hnz, ho, hmem]
    · simp [List.mem_filter, finalizer_entry_kept, ho]
  · refine ⟨?_, ?_, ?_⟩
    · simp [List.mem_filter, finalizer_entry_kept, hnz, hf, ho, hmem]
    · simp [List.mem_filter, finalizer_entry_scheduled, hf]
    · simp [List.mem_filter, finalizer_entry_promoted, ho]

/-- Witness for C5: one pair (object 10, callback 20), every object
unmarked (CLEAN), on a per-mutator list: the pair is scheduled for
finalization and dropped from the list. -/
theorem sweep_finalizer_list_moves_witness :
    (((10 : Nat), (20 : Nat)) ∈ [((10 : Nat), (20 : Nat))] ∧ (10 : Nat) ≠ 0) ∧
    ((finalizer_entry_isfreed (fun _ => GC_CLEAN) 10 = true →
       (10, 20) ∈ (sweep_finalizer_list false (fun _ => GC_CLEAN) [(10, 20)]).to_finalize ∧
       (10, 20) ∉ (sweep_finalizer_list false (fun _ => GC_CLEAN) [(10, 20)]).kept) ∧
     (finalizer_entry_isfreed (fun _ => GC_CLEAN) 10 = false →
      finalizer_entry_isold false (fun _ => GC_CLEAN) 10 20 = true →
       (10, 20) ∈ (sweep_finalizer_list false (fun _ => GC_CLEAN) [(10, 20)]).marked_additions ∧
       (10, 20) ∉ (sweep_finalizer_list false (fun _ => GC_CLEAN) [(10, 20)]).kept) ∧
     (finalizer_entry_isfreed (fun _ => GC_CLEAN) 10 = false →
      finalizer_entry_isold false (fun _ => GC_CLEAN) 10 20 = false →
       (10, 20) ∈ (sweep_finalizer_list false (fun _ => GC_CLEAN) [(10, 20)]).kept ∧
       (10, 20) ∉ (sweep_finalizer_list false (fun _ => GC_CLEAN) [(10, 20)]).to_finalize ∧
       (10, 20) ∉ (sweep_finalizer_list false (fun _ => GC_CLEAN) [(10, 20)]).marked_additions)) :=
  ⟨⟨by decide, by decide⟩,
   sweep_finalizer_list_moves false (fun _ => GC_CLEAN) [(10, 20)] 10 20
     (by decide) (by decide)⟩

end JuliaGC
